import Mathlib

/-!
Verification of the conversation/streaming/concurrency core of the grokprime
assistant.  The definitions below are a shallow embedding of the Rust sources:

* `Message`, `ChatRequest`-adjacent records, `ConversationHistory` — src/models.rs
* `Persona`                                     — src/persona/mod.rs
* `GrokConversation` and its operations         — src/agent_history/conversations.rs
* `HistoryManager` (pure parts of persistence)  — src/grok/history.rs
* `Connection::summarize_history` and
  `Connection::handle_response_streaming`       — src/llm/client.rs
* the SSE line parser of
  `GrokClient::send_streaming_request`          — src/grok/client.rs
* `handle_send_message`, `ShadowApp::poll_channels`
                                                — src/tui/command_handler.rs, src/tui/app.rs

I/O and the network are modelled by explicit parameters (HTTP status, the list
of byte chunks the body stream delivers, whether the historian persona loads,
the historian's reply, whether the archive write succeeds); JSON decoding of
the two vendor chunk shapes (done by serde in the source) is abstracted as a
pair of functions from the line payload to the decoded record.  File writes
are recorded as an explicit effect trace.  Floating-point configuration fields
(sampling temperature) play no role in any property below and are omitted.
-/

namespace Grokprime

/-- A chat message: role ("system" / "user" / "assistant") and content
(src/models.rs, `Message`). -/
structure Message where
  role : String
  content : String
deriving DecidableEq

/-- The persona configuration fields consumed by the conversation core
(src/persona/mod.rs, `Persona`).  `temperature`/`max_tokens` (floating point,
unused by the properties below) are omitted. -/
structure Persona where
  name : String
  system_prompt : String
  enable_history : Bool
  history_message_limit : Nat
  summary_threshold : Nat
deriving DecidableEq

/-- The marker substring used to detect an injected summary message
(the string literal `"[Previous conversation summary:"` used with
`contains` in conversations.rs, history.rs and llm/client.rs). -/
def summaryMarker : String := "[Previous conversation summary:"

/-- `format!("[Previous conversation summary: {}]", summary)` — the content of
the synthetic summary message (llm/client.rs line 357, history.rs line 115). -/
def wrapSummary (s : String) : String :=
  "[Previous conversation summary: " ++ s ++ "]"

/-- Substring occurrence on the character level. -/
def isInfixOfChars (pat : List Char) : List Char → Bool
  | [] => pat.isEmpty
  | c :: cs => pat.isPrefixOf (c :: cs) || isInfixOfChars pat cs

/-- Rust `str::contains` for a literal pattern: substring test. -/
def containsSubstr (s pat : String) : Bool :=
  isInfixOfChars pat.toList s.toList

/-- Rust `str::strip_prefix` on the character level: `some rest` iff the list
starts with the pattern. -/
def dropPrefixChars : List Char → List Char → Option (List Char)
  | [], s => some s
  | _ :: _, [] => none
  | p :: ps, c :: cs => if p = c then dropPrefixChars ps cs else none

/-- Rust `str::strip_suffix` on the character level. -/
def dropSuffixChars (suf s : List Char) : Option (List Char) :=
  (dropPrefixChars suf.reverse s.reverse).map List.reverse

/-- In-memory conversation state
(src/agent_history/conversations.rs, `GrokConversation`). -/
structure GrokConversation where
  local_history : List Message
  last_response_id : Option String
  persona : Persona
deriving DecidableEq

namespace GrokConversation

/-- `GrokConversation::new`: history starts as the single system message. -/
def new (p : Persona) : GrokConversation :=
  ⟨[⟨"system", p.system_prompt⟩], none, p⟩

/-- `GrokConversation::with_history`. -/
def with_history (p : Persona) (loaded_history : List Message) : GrokConversation :=
  ⟨loaded_history, none, p⟩

/-- `GrokConversation::add_user_message`. -/
def add_user_message (c : GrokConversation) (content : String) : GrokConversation :=
  { c with local_history := c.local_history ++ [⟨"user", content⟩] }

/-- `GrokConversation::add_assistant_message`. -/
def add_assistant_message (c : GrokConversation) (content : String) : GrokConversation :=
  { c with local_history := c.local_history ++ [⟨"assistant", content⟩] }

/-- `GrokConversation::set_last_response_id`. -/
def set_last_response_id (c : GrokConversation) (id : String) : GrokConversation :=
  { c with last_response_id := some id }

/-- `GrokConversation::should_summarize` (conversations.rs lines 241-258).
The filter keeps a message when `msg.role != "system"` **or** the content does
not contain the summary marker — exactly the source's predicate. -/
def should_summarize (c : GrokConversation) : Bool :=
  if !c.persona.enable_history then false
  else
    let message_count :=
      (c.local_history.filter
        (fun msg => msg.role != "system" || !(containsSubstr msg.content summaryMarker))).length
    decide (message_count > c.persona.summary_threshold)

/-- `GrokConversation::message_count`. -/
def message_count (c : GrokConversation) : Nat := c.local_history.length

/-- `GrokConversation::get_system_prompt` (`local_history.first()`). -/
def get_system_prompt (c : GrokConversation) : Option Message :=
  c.local_history.head?

/-- `GrokConversation::clear_history`: reset to just the system prompt; if the
history is empty the source only logs an error and changes nothing. -/
def clear_history (c : GrokConversation) : GrokConversation :=
  match c.local_history.head? with
  | some prompt => { c with local_history := [prompt], last_response_id := none }
  | none => c

/-- `GrokConversation::replace_history`. -/
def replace_history (c : GrokConversation) (new_history : List Message) : GrokConversation :=
  { c with local_history := new_history }

end GrokConversation

/-- The persisted history record (src/models.rs, `ConversationHistory`). -/
structure ConversationHistory where
  persona_name : String
  summary : Option String
  recent_messages : List Message
  total_message_count : Nat
  last_updated : String
  summarization_count : Nat
deriving DecidableEq

namespace HistoryManager

/-- `HistoryManager::build_history_from_loaded` (history.rs lines 106-123):
`[system_prompt, optional re-wrapped summary, recent_messages]`. -/
def build_history_from_loaded (p : Persona) (loaded_history : ConversationHistory) :
    List Message :=
  [⟨"system", p.system_prompt⟩] ++
    (match loaded_history.summary with
     | some summary => [⟨"system", wrapSummary summary⟩]
     | none => []) ++
    loaded_history.recent_messages

/-- The strip chain of `save_persona_history` (history.rs lines 172-177):
`strip_prefix("[Previous conversation summary: ").and_then(strip_suffix("]"))`. -/
def stripSummaryContent (content : String) : Option String :=
  (dropPrefixChars "[Previous conversation summary: ".toList content.toList).bind
    (fun rest => (dropSuffixChars "]".toList rest).map (fun l => ⟨l⟩))

/-- The record written by `HistoryManager::save_persona_history`
(history.rs lines 154-186); `now` stands for the wall-clock RFC3339 string. -/
def savedRecord (c : GrokConversation) (now : String) : ConversationHistory :=
  let limit := c.persona.history_message_limit
  let recent_start :=
    if c.local_history.length > limit + 1 then c.local_history.length - limit else 1
  { persona_name := c.persona.name
    summary :=
      (c.local_history.find?
        (fun msg => msg.role == "system" && containsSubstr msg.content summaryMarker)).bind
        (fun msg => stripSummaryContent msg.content)
    recent_messages := c.local_history.drop recent_start
    total_message_count := c.local_history.length - 1
    last_updated := now
    summarization_count := 0 }

end HistoryManager

/-- File-system effects performed by the history compactor, in program order:
`archive` is `HistoryManager::archive_full_history` (payload: the archived
log), `replaceLog` is the `conversation.replace_history` swap (payload: the
new log), `persist` is a `save_persona_history` write. -/
inductive HistEffect where
  | archive (log : List Message)
  | replaceLog (log : List Message)
  | persist
deriving DecidableEq

/-- The synthetic summary message built by `Connection::summarize_history`. -/
def summaryMessage (summary : String) : Message :=
  ⟨"system", wrapSummary summary⟩

/-- `Connection::summarize_history` (llm/client.rs lines 296-371).
Environment parameters stand for the fallible external steps in source order:
`historianLoadOk` — `Persona::from_yaml_file` on the historian persona,
`historianResponse` — the blocking historian round trip (`none` = `Err`,
`some s` = a reply with full text `s`; the prompt content built from the old
span only feeds this call and is abstracted with it), `archiveOk` — the
`archive_full_history` write.  Result: the conversation after the call, the
performed file effects in order, and whether the call returned `Ok`. -/
def summarizeHistory (c : GrokConversation) (historianLoadOk : Bool)
    (historianResponse : Option String) (archiveOk : Bool) :
    GrokConversation × List HistEffect × Bool :=
  if !historianLoadOk then (c, [], false)
  else
    let limit := c.persona.history_message_limit
    if c.local_history.length > limit + 1 then
      let cutoff_index := c.local_history.length - limit
      match historianResponse with
      | none => (c, [], false)
      | some summary =>
        if archiveOk then
          let new_history :=
            c.local_history.take 1 ++ [summaryMessage summary] ++
              c.local_history.drop cutoff_index
          (c.replace_history new_history,
           [HistEffect.archive c.local_history, HistEffect.replaceLog new_history],
           true)
        else (c, [], false)
    else (c, [], true)

/-- The channel message type (src/models.rs, `StreamChunk`).  Error and info
payloads built from runtime `format!` strings keep only the fixed part of the
format string where the interpolated data is foreign (I/O error texts). -/
inductive StreamChunk where
  | delta (text : String)
  | complete (response_id full_reply : String)
  | error (msg : String)
  | info (msg : String)
deriving DecidableEq

/-- `StreamResponse` (src/llm/mod.rs): the value a streaming send resolves to. -/
structure StreamResponse where
  response_id : String
  full_text : String
deriving DecidableEq

/-- The decoded incremental-delta JSON shape (src/models.rs, `DeltaChunk`);
only the fields the parser loop reads. -/
structure DeltaChunk where
  type_ : String
  delta : String
deriving DecidableEq

/-- The decoded terminal-completed JSON shape (src/models.rs,
`CompletedChunk`); `response_id` is `complete.response.id`. -/
structure CompletedChunk where
  type_ : String
  response_id : String
deriving DecidableEq

/-- `Connection::handle_response_streaming` lines 231-243: the summarization
evaluation after a completed turn, including the chunks it sends.  Returns the
conversation afterwards, the chunks sent, and the file effects performed. -/
def evalSummarization (c : GrokConversation) (historianLoadOk : Bool)
    (historianResponse : Option String) (archiveOk : Bool) :
    GrokConversation × List StreamChunk × List HistEffect :=
  if c.should_summarize then
    let r := summarizeHistory c historianLoadOk historianResponse archiveOk
    if r.2.2 then
      (r.1, [StreamChunk.info "Summarizing conversation history..."],
       r.2.1 ++ [HistEffect.persist])
    else
      (r.1, [StreamChunk.info "Summarizing conversation history...",
             StreamChunk.error "Summarization failed"],
       r.2.1)
  else (c, [], [])

/-- The history branch of `handle_response_streaming` (llm/client.rs lines
226-244): when persistence is enabled, save, then evaluate summarization. -/
def historySideEffects (c1 : GrokConversation) (historianLoadOk : Bool)
    (historianResponse : Option String) (archiveOk : Bool) :
    GrokConversation × List StreamChunk × List HistEffect :=
  if c1.persona.enable_history then
    let r := evalSummarization c1 historianLoadOk historianResponse archiveOk
    (r.1, r.2.1, HistEffect.persist :: r.2.2)
  else (c1, [], [])

/-- The external behaviour a single streaming send can observe
(HTTP status line, error body, the byte-stream chunks as decoded text, and the
compaction environment of `summarize_history`). -/
structure StreamEnv where
  statusOk : Bool
  httpStatus : String
  httpBody : String
  netChunks : List (List Char)
  historianLoadOk : Bool
  historianResponse : Option String
  archiveOk : Bool

section Streaming

variable (pd : String → Option DeltaChunk) (pc : String → Option CompletedChunk)

/-- The accumulator variables of the SSE parsing loop in
`GrokClient::send_streaming_request` (grok/client.rs lines 133-134): the
accumulated reply (`full_reply`), the recorded continuation id
(`response_id`), and the chunks sent on the channel so far. -/
structure ParserCore where
  fullReply : String
  responseId : Option String
  sent : List StreamChunk
deriving DecidableEq

/-- Full state of the parsing loop: the line buffer (`line_buffer`,
grok/client.rs line 135) plus the accumulators. -/
structure ParserState where
  lineBuffer : List Char
  core : ParserCore
deriving DecidableEq

/-- Split a character stream into the complete newline-terminated lines (the
newline itself consumed, exactly the `find('\n')` / `drain(..=pos)` loop) and
the remaining partial line. -/
def splitLines : List Char → List (List Char) × List Char
  | [] => ([], [])
  | ch :: cs =>
    let r := splitLines cs
    if ch = '\n' then ([] :: r.1, r.2)
    else
      match r with
      | ([], rest) => ([], ch :: rest)
      | (l :: ls, rest) => ((ch :: l) :: ls, rest)

/-- Handling of one complete line (grok/client.rs lines 145-160): strip the
`"data: "` SSE framing, then try the delta shape and the completed shape; any
other line is ignored. -/
def processLine (st : ParserCore) (line : List Char) : ParserCore :=
  match dropPrefixChars "data: ".toList line with
  | none => st
  | some dataChars =>
    let data : String := ⟨dataChars⟩
    let st1 :=
      match pd data with
      | some d =>
        if d.type_ = "response.output_text.delta" then
          { st with fullReply := st.fullReply ++ d.delta,
                    sent := st.sent ++ [StreamChunk.delta d.delta] }
        else st
      | none => st
    match pc data with
    | some comp =>
      if comp.type_ = "response.completed" then { st1 with responseId := some comp.response_id }
      else st1
    | none => st1

/-- Receiving one network chunk: append to the line buffer, then process every
complete line now available. -/
def feedChunk (st : ParserState) (chunk : List Char) : ParserState :=
  let r := splitLines (st.lineBuffer ++ chunk)
  ⟨r.2, r.1.foldl (processLine pd pc) st.core⟩

/-- The parser state before the first chunk arrives. -/
def initParser : ParserState := ⟨[], "", none, []⟩

/-- Feed a whole sequence of network chunks. -/
def feedAll (st : ParserState) (chunks : List (List Char)) : ParserState :=
  chunks.foldl (feedChunk pd pc) st

/-- `GrokClient::send_streaming_request` (grok/client.rs lines 107-170):
non-2xx short-circuits with an `Error` chunk and an `Err`; otherwise the body
is stream-parsed and the call fails iff no completed event ever supplied a
response id.  Returns the chunks sent on the channel and the result. -/
def send_streaming_request (env : StreamEnv) :
    List StreamChunk × Except String StreamResponse :=
  if !env.statusOk then
    ([StreamChunk.error ("API error: " ++ env.httpStatus ++ " - " ++ env.httpBody)],
     Except.error ("API error: " ++ env.httpStatus))
  else
    let st := feedAll pd pc initParser env.netChunks
    match st.core.responseId with
    | none => (st.core.sent, Except.error "No response ID received")
    | some rid => (st.core.sent, Except.ok ⟨rid, st.core.fullReply⟩)

/-- `Connection::handle_response_streaming` (llm/client.rs lines 213-254) on
the spawned task's clone of the connection: stream the reply, commit it to the
clone, persist and evaluate compaction when history is enabled, then send the
terminal `Complete` chunk.  The last component is `some e` when the function
returned `Err(e)`. -/
def handle_response_streaming (c : GrokConversation) (env : StreamEnv) :
    GrokConversation × List StreamChunk × List HistEffect × Option String :=
  match send_streaming_request pd pc env with
  | (sent, Except.error e) => (c, sent, [], some e)
  | (sent, Except.ok resp) =>
    let c1 := (c.add_assistant_message resp.full_text).set_last_response_id resp.response_id
    let afterHist :=
      historySideEffects c1 env.historianLoadOk env.historianResponse env.archiveOk
    let completeChunk :=
      StreamChunk.complete resp.response_id
        (((afterHist.1.local_history.getLast?).map Message.content).getD "")
    (afterHist.1, sent ++ afterHist.2.1 ++ [completeChunk], afterHist.2.2, none)

/-- The body of the task spawned by `handle_send_message`
(tui/command_handler.rs lines 218-223): add the user message to the cloned
connection, run the streaming turn, and send an `Error` chunk if it failed.
Returns the clone afterwards, every chunk sent on the channel, and the file
effects. -/
def taskRun (c : GrokConversation) (content : String) (env : StreamEnv) :
    GrokConversation × List StreamChunk × List HistEffect :=
  match handle_response_streaming pd pc (c.add_user_message content) env with
  | (c1, sent, effs, none) => (c1, sent, effs)
  | (c1, sent, effs, some e) => (c1, sent ++ [StreamChunk.error e], effs)

/-- The chunks the spawned task delivers on the pane's channel. -/
def taskEmissions (c : GrokConversation) (content : String) (env : StreamEnv) :
    List StreamChunk :=
  (taskRun pd pc c content env).2.1

end Streaming

/-- The per-agent pane state touched by the send/poll paths
(src/tui/agent_pane.rs): the canonical connection's conversation, the display
transcript, and the wait/task flags.  Scroll and animation fields are pure
display counters and are omitted. -/
structure AgentPane where
  connection_conv : GrokConversation
  messages : List String
  is_waiting : Bool
  has_active_task : Bool
deriving DecidableEq

/-- Consumer-side handling of one channel chunk — the match arms of
`ShadowApp::poll_channels` (tui/app.rs lines 327-367). -/
def pollChunk (p : AgentPane) : StreamChunk → AgentPane
  | StreamChunk.delta text =>
    match p.messages.getLast? with
    | some last_msg =>
      if !last_msg.startsWith ">" then
        { p with messages := p.messages.dropLast ++ [last_msg ++ text] }
      else
        { p with messages := p.messages ++ [text] }
    | none => { p with messages := p.messages ++ [text] }
  | StreamChunk.complete response_id full_reply =>
    { p with
        connection_conv :=
          { p.connection_conv with
              last_response_id := some response_id,
              local_history :=
                p.connection_conv.local_history ++ [⟨"assistant", full_reply⟩] },
        is_waiting := false,
        has_active_task := false }
  | StreamChunk.error err =>
    { p with
        messages := p.messages ++ ["Error: " ++ err, "Type your message again to retry."],
        is_waiting := false,
        has_active_task := false }
  | StreamChunk.info _ => p

/-- One tick's drain of a pane's channel: apply every pending chunk in order. -/
def pollChunks (p : AgentPane) (chunks : List StreamChunk) : AgentPane :=
  chunks.foldl pollChunk p

/-- One session: the pane, the chunks sitting in its channel, and the pending
emissions of the live producer task (`none` — no task was ever spawned;
aborting a task discards its pending emissions). -/
structure SessionState where
  pane : AgentPane
  queue : List StreamChunk
  producer : Option (List StreamChunk)
deriving DecidableEq

/-- `handle_send_message` (tui/command_handler.rs lines 205-229) given the
emission sequence the new task will produce: display the prompt, set the wait
flag, abort any in-flight task (its pending emissions are discarded), and
spawn the new producer. -/
def sendStep (σ : SessionState) (content : String) (script : List StreamChunk) :
    SessionState :=
  { pane := { σ.pane with
                messages := σ.pane.messages ++ ["> " ++ content],
                is_waiting := true,
                has_active_task := true },
    queue := σ.queue,
    producer := some script }

/-- `handle_send_message` proper: the spawned task works on a clone of the
pane's connection, adding the user message there and streaming the turn. -/
def handleSendMessage (pd : String → Option DeltaChunk)
    (pc : String → Option CompletedChunk) (σ : SessionState) (content : String)
    (env : StreamEnv) : SessionState :=
  sendStep σ content (taskEmissions pd pc σ.pane.connection_conv content env)

/-- Scheduler actions interleaving the producer task with the consumer tick:
`emit` — the task sends its next chunk into the channel; `poll` — the consumer
drains the channel (one `poll_channels` visit of this pane). -/
inductive SchedOp where
  | emit
  | poll
deriving DecidableEq

/-- One scheduler action. -/
def schedStep (σ : SessionState) : SchedOp → SessionState
  | SchedOp.emit =>
    match σ.producer with
    | some (chunk :: rest) => { σ with queue := σ.queue ++ [chunk], producer := some rest }
    | _ => σ
  | SchedOp.poll => { σ with pane := pollChunks σ.pane σ.queue, queue := [] }

/-- Run a sequence of scheduler actions. -/
def schedRun (σ : SessionState) (ops : List SchedOp) : SessionState :=
  ops.foldl schedStep σ

/-- The conversation states reachable through the mutations the program
performs: fresh creation, creation from a loaded persisted record, the two
appends, recording a continuation id, clearing, and a compaction attempt
(`Connection::summarize_history` under any environment). -/
inductive Reachable : GrokConversation → Prop where
  | create (p : Persona) : Reachable (GrokConversation.new p)
  | load (p : Persona) (h : ConversationHistory) :
      Reachable (GrokConversation.with_history p (HistoryManager.build_history_from_loaded p h))
  | user {c : GrokConversation} (content : String) :
      Reachable c → Reachable (c.add_user_message content)
  | assistant {c : GrokConversation} (content : String) :
      Reachable c → Reachable (c.add_assistant_message content)
  | respId {c : GrokConversation} (id : String) :
      Reachable c → Reachable (c.set_last_response_id id)
  | clear {c : GrokConversation} :
      Reachable c → Reachable c.clear_history
  | compact {c : GrokConversation} (historianLoadOk : Bool)
      (historianResponse : Option String) (archiveOk : Bool) :
      Reachable c → Reachable (summarizeHistory c historianLoadOk historianResponse archiveOk).1

/-- The Unicode replacement character emitted by lossy UTF-8 decoding. -/
def replChar : Char := Char.ofNat 0xFFFD

/-- Whether a byte is a UTF-8 continuation byte (`0x80..=0xBF`). -/
def isUtf8Cont (b : Nat) : Bool := 0x80 ≤ b && b ≤ 0xBF

/-- Validity of the second byte of a 3-byte sequence, per lead byte
(tight ranges for `0xE0` and `0xED`). -/
def isValidSecondE (b b2 : Nat) : Bool :=
  if b = 0xE0 then 0xA0 ≤ b2 && b2 ≤ 0xBF
  else if b = 0xED then 0x80 ≤ b2 && b2 ≤ 0x9F
  else isUtf8Cont b2

/-- Validity of the second byte of a 4-byte sequence, per lead byte
(tight ranges for `0xF0` and `0xF4`). -/
def isValidSecondF (b b2 : Nat) : Bool :=
  if b = 0xF0 then 0x90 ≤ b2 && b2 ≤ 0xBF
  else if b = 0xF4 then 0x80 ≤ b2 && b2 ≤ 0x8F
  else isUtf8Cont b2

/-- Worker for lossy UTF-8 decoding; the fuel only bounds recursion depth and
is never exhausted when it starts at the list's length, since every step
consumes at least one byte. -/
def utf8LossyGo : Nat → List Nat → List Char
  | 0, _ => []
  | _, [] => []
  | fuel + 1, b :: bs =>
    if b < 0x80 then Char.ofNat b :: utf8LossyGo fuel bs
    else if 0xC2 ≤ b && b ≤ 0xDF then
      match bs with
      | [] => [replChar]
      | b2 :: rest =>
        if isUtf8Cont b2 then
          Char.ofNat ((b - 0xC0) * 0x40 + (b2 - 0x80)) :: utf8LossyGo fuel rest
        else replChar :: utf8LossyGo fuel bs
    else if 0xE0 ≤ b && b ≤ 0xEF then
      match bs with
      | [] => [replChar]
      | b2 :: bs2 =>
        if isValidSecondE b b2 then
          match bs2 with
          | [] => [replChar]
          | b3 :: bs3 =>
            if isUtf8Cont b3 then
              Char.ofNat (((b - 0xE0) * 0x40 + (b2 - 0x80)) * 0x40 + (b3 - 0x80)) ::
                utf8LossyGo fuel bs3
            else replChar :: utf8LossyGo fuel bs2
        else replChar :: utf8LossyGo fuel bs
    else if 0xF0 ≤ b && b ≤ 0xF4 then
      match bs with
      | [] => [replChar]
      | b2 :: bs2 =>
        if isValidSecondF b b2 then
          match bs2 with
          | [] => [replChar]
          | b3 :: bs3 =>
            if isUtf8Cont b3 then
              match bs3 with
              | [] => [replChar]
              | b4 :: bs4 =>
                if isUtf8Cont b4 then
                  Char.ofNat ((((b - 0xF0) * 0x40 + (b2 - 0x80)) * 0x40 + (b3 - 0x80)) * 0x40
                      + (b4 - 0x80)) :: utf8LossyGo fuel bs4
                else replChar :: utf8LossyGo fuel bs3
            else replChar :: utf8LossyGo fuel bs2
        else replChar :: utf8LossyGo fuel bs
    else replChar :: utf8LossyGo fuel bs

/-- Rust `String::from_utf8_lossy` applied to one network chunk
(grok/client.rs line 139): standard UTF-8 decoding where every maximal valid
subpart of an ill-formed sequence is replaced by one U+FFFD. -/
def utf8Lossy (l : List Nat) : List Char := utf8LossyGo l.length l

/-- Feeding the parser the raw network bytes of one chunk, decoded exactly as
the source does (`String::from_utf8_lossy` per chunk, then buffer append). -/
def feedBytes (pd : String → Option DeltaChunk) (pc : String → Option CompletedChunk)
    (st : ParserState) (bytes : List Nat) : ParserState :=
  feedChunk pd pc st (utf8Lossy bytes)

/-- Feeding a whole sequence of raw byte chunks. -/
def feedAllBytes (pd : String → Option DeltaChunk) (pc : String → Option CompletedChunk)
    (st : ParserState) (chunks : List (List Nat)) : ParserState :=
  chunks.foldl (feedBytes pd pc) st

/-- Whether a channel chunk is the terminal `Complete` variant. -/
def isCompleteChunk : StreamChunk → Bool
  | StreamChunk.complete _ _ => true
  | _ => false

/-- Number of `Complete` chunks in a list. -/
def numCompletes (cs : List StreamChunk) : Nat :=
  cs.countP (fun ch => isCompleteChunk ch)

/-- The assistant messages the consumer commits when it drains the given
chunks, in order: one per `Complete` chunk, built exactly as in
`poll_channels`. -/
def commitsOf (cs : List StreamChunk) : List Message :=
  cs.filterMap (fun ch =>
    match ch with
    | StreamChunk.complete _ full => some ⟨"assistant", full⟩
    | _ => none)

/-- The chunks the live producer task has not yet emitted. -/
def pendingOf (σ : SessionState) : List StreamChunk := σ.producer.getD []

/-- Everything that can still reach the consumer: queued chunks followed by
the producer's pending emissions. -/
def totalStream (σ : SessionState) : List StreamChunk := σ.queue ++ pendingOf σ

/-- A complete line that would be recognised as a terminal completed event:
it carries the `"data: "` framing and its payload decodes to an object of
type `"response.completed"`. -/
def completedLine (pc : String → Option CompletedChunk) (line : List Char) : Prop :=
  ∃ rest comp, dropPrefixChars "data: ".toList line = some rest ∧
    pc ⟨rest⟩ = some comp ∧ comp.type_ = "response.completed"

/-- The partition of a character stream into complete newline-terminated
lines plus the trailing partial line — "feeding one complete line at a
time". -/
def lineChunks (s : List Char) : List (List Char) :=
  (splitLines s).1.map (fun l => l ++ ['\n']) ++ [(splitLines s).2]

/-- The old span as claim C2 words it — the messages strictly between the
system/summary prefix (the leading system message together with a directly
following summary-marker message) and the cutoff that keeps the most recent
`history_message_limit` messages.  This definition follows the claim's
wording; the source's old span starts right after index 0 instead. -/
def specOldSpan (c : GrokConversation) : List Message :=
  let prefixLen : Nat :=
    match c.local_history with
    | _ :: m :: _ =>
      if m.role == "system" && containsSubstr m.content summaryMarker then 2 else 1
    | _ => 1
  (c.local_history.take
    (c.local_history.length - c.persona.history_message_limit)).drop prefixLen

/-- Fixture: persona with the spec's boundary threshold 20. -/
def personaTh20 : Persona := ⟨"shadow", "sys", true, 12, 20⟩

/-- Fixture: a log holding the system prompt plus exactly 20 user messages. -/
def convBoundary20 : GrokConversation :=
  ⟨⟨"system", "sys"⟩ :: List.replicate 20 ⟨"user", "hi"⟩, none, personaTh20⟩

/-- Fixture: a log holding the system prompt plus 21 user messages. -/
def convTotal21 : GrokConversation :=
  ⟨⟨"system", "sys"⟩ :: List.replicate 21 ⟨"user", "m"⟩, none, personaTh20⟩

/-- Fixture: persona keeping 2 recent messages, threshold 1. -/
def personaLim2 : Persona := ⟨"shadow", "sys", true, 2, 1⟩

/-- Fixture: a log whose index 1 already carries a summary-marker message and
whose tail is exactly `history_message_limit` recent messages. -/
def convWithSummary : GrokConversation :=
  ⟨[⟨"system", "sys"⟩, summaryMessage "old", ⟨"user", "u1"⟩, ⟨"assistant", "a1"⟩],
   none, personaLim2⟩

/-- An observing delta decoder: accepts every payload as a delta, so the
emitted events record the exact line payloads the parser hands to JSON
decoding (the source's serde decoder is likewise a function of the payload). -/
def pdObs : String → Option DeltaChunk :=
  fun data => some ⟨"response.output_text.delta", data⟩

/-- A completed decoder that never matches. -/
def pcNone : String → Option CompletedChunk := fun _ => none

/-- A completed decoder that always matches with a fixed id. -/
def pcAlways : String → Option CompletedChunk :=
  fun _ => some ⟨"response.completed", "rid1"⟩

/-- ASCII bytes of a string. -/
def asciiBytes (s : String) : List Nat := s.toList.map Char.toNat

/-- One complete SSE line whose delta payload ends in the two-byte UTF-8
character U+00E9. -/
def sseLineBytes : List Nat := asciiBytes "data: x" ++ [0xC3, 0xA9, 0x0A]

/-- The same bytes split in the middle of the U+00E9 encoding. -/
def sseSplitA : List Nat := asciiBytes "data: x" ++ [0xC3]

/-- Second half of the split. -/
def sseSplitB : List Nat := [0xA9, 0x0A]

/-- Fixture: an environment whose body stream never carries a completed
event (exercised with `pcNone`). -/
def envNoComplete : StreamEnv := ⟨true, "200", "", ["data: hi\n".toList], true, none, true⟩

/-- Fixture: a fresh pane for `personaLim2`. -/
def paneSmall : AgentPane := ⟨GrokConversation.new personaLim2, [], false, false⟩

/-- Fixture: a session with an empty channel and no task. -/
def sessionSmall : SessionState := ⟨paneSmall, [], none⟩

/-! ## Theorems -/

/-- Helper: the successful compaction branch of `summarize_history`. -/
theorem summarizeHistory_success (c : GrokConversation) (s : String)
    (h : c.local_history.length > c.persona.history_message_limit + 1) :
    summarizeHistory c true (some s) true =
      (c.replace_history
        (c.local_history.take 1 ++ [summaryMessage s] ++
          c.local_history.drop
            (c.local_history.length - c.persona.history_message_limit)),
       [HistEffect.archive c.local_history,
        HistEffect.replaceLog
          (c.local_history.take 1 ++ [summaryMessage s] ++
            c.local_history.drop
              (c.local_history.length - c.persona.history_message_limit))],
       true) := by
  unfold summarizeHistory
  simp [h]

/-- Helper: after any `summarize_history` call the conversation is either
untouched or its log has the rebuilt three-part shape. -/
theorem summarizeHistory_log_shape (c : GrokConversation) (historianLoadOk : Bool)
    (historianResponse : Option String) (archiveOk : Bool) :
    (summarizeHistory c historianLoadOk historianResponse archiveOk).1 = c ∨
    ∃ s, historianResponse = some s ∧
      (summarizeHistory c historianLoadOk historianResponse archiveOk).1.local_history =
        c.local_history.take 1 ++ [summaryMessage s] ++
          c.local_history.drop
            (c.local_history.length - c.persona.history_message_limit) := by
  cases historianLoadOk with
  | false => exact Or.inl rfl
  | true =>
    by_cases h : c.local_history.length > c.persona.history_message_limit + 1
    · cases historianResponse with
      | none =>
        unfold summarizeHistory
        simp [h]
      | some s =>
        cases archiveOk with
        | false =>
          unfold summarizeHistory
          simp [h]
        | true =>
          refine Or.inr ⟨s, rfl, ?_⟩
          rw [summarizeHistory_success c s h]
          rfl
    · unfold summarizeHistory
      simp [h]

/-- Helper: appending on the right keeps the head of a non-empty list. -/
theorem head?_append_right_one {α : Type} {l : List α} (x : α) {m : α}
    (h : l.head? = some m) : (l ++ [x]).head? = some m := by
  cases l with
  | nil => cases h
  | cons a t => simpa using h

/-- Claim C3 (code bug): with `summary_threshold = 20`, a log holding the
system prompt plus exactly 20 qualifying (non-system, non-marker) messages —
which the claim and the function's own doc comment say must give `false` —
already makes `should_summarize` return `true`: the source's filter
`role != "system" || !contains(marker)` also counts the plain system
prompt. -/
theorem c3_boundary_code_bug :
    (convBoundary20.local_history.filter (fun m => m.role != "system")).length =
        convBoundary20.persona.summary_threshold ∧
    convBoundary20.should_summarize = true := by
  constructor
  · decide
  · decide

/-- Claim C8 counterexample: `total_message_count` is written as the current
log length minus one, so a save, a compaction (which truncates the log) and a
second save record a strictly smaller count — it is not a total-ever count and
it does decrease. -/
theorem c8_counterexample :
    convTotal21.should_summarize = true ∧
    (HistoryManager.savedRecord convTotal21 "t1").total_message_count = 21 ∧
    (HistoryManager.savedRecord
        (summarizeHistory convTotal21 true (some "S") true).1 "t2").total_message_count = 13 ∧
    (HistoryManager.savedRecord
        (summarizeHistory convTotal21 true (some "S") true).1 "t2").total_message_count <
      (HistoryManager.savedRecord convTotal21 "t1").total_message_count := by
  refine ⟨by decide, by decide, by decide, by decide⟩

/-- Claim C2 counterexample: on a log `[system, summary-marker, u1, a1]` with
`history_message_limit = 2` the old span in the claim's sense (between the
system/summary prefix and the cutoff) is empty, yet `summarize_history` is not
a no-op: the source's old span starts right after the system message, so the
marker message counts as old and the log is rebuilt. -/
theorem c2_counterexample :
    specOldSpan convWithSummary = [] ∧
    convWithSummary.should_summarize = true ∧
    (summarizeHistory convWithSummary true (some "NEW") true).1 ≠ convWithSummary := by
  refine ⟨by decide, by decide, by decide⟩

/-- Claim C2 (amended): a triggered compaction is a no-op exactly when the log
holds at most `history_message_limit + 1` messages — i.e. when the span after
the leading system message (an already-injected summary-marker message counts
as old) is empty; otherwise, on a successful historian round trip, the log
becomes exactly [original system message, one synthetic summary message, the
most recent `history_message_limit` messages], and the full pre-compaction log
is archived before the log is replaced. -/
theorem c2_compaction_shape (c : GrokConversation) (summary : String) :
    (c.local_history.length ≤ c.persona.history_message_limit + 1 →
      summarizeHistory c true (some summary) true = (c, [], true)) ∧
    (c.local_history.length > c.persona.history_message_limit + 1 →
      (c.local_history.drop
          (c.local_history.length - c.persona.history_message_limit)).length =
        c.persona.history_message_limit ∧
      c.local_history.drop
          (c.local_history.length - c.persona.history_message_limit) <:+
        c.local_history ∧
      summarizeHistory c true (some summary) true =
        (c.replace_history
          (c.local_history.take 1 ++ [summaryMessage summary] ++
            c.local_history.drop
              (c.local_history.length - c.persona.history_message_limit)),
         [HistEffect.archive c.local_history,
          HistEffect.replaceLog
            (c.local_history.take 1 ++ [summaryMessage summary] ++
              c.local_history.drop
                (c.local_history.length - c.persona.history_message_limit))],
         true)) := by
  constructor
  · intro h
    unfold summarizeHistory
    simp [Nat.not_lt.mpr h]
  · intro h
    refine ⟨?_, List.drop_suffix _ _, ?_⟩
    · rw [List.length_drop]
      omega
    · unfold summarizeHistory
      simp [h]

/-- Witness for the amended claim C2 theorem at concrete inputs: a fresh
conversation (no old span) is untouched, and `convWithSummary` (limit 2,
four messages) is rebuilt with the last two messages kept after archiving. -/
theorem c2_compaction_shape_witness :
    summarizeHistory (GrokConversation.new personaLim2) true (some "S") true =
      (GrokConversation.new personaLim2, [], true) ∧
    ((convWithSummary.local_history.drop 2).length = 2 ∧
      convWithSummary.local_history.drop 2 <:+ convWithSummary.local_history ∧
      summarizeHistory convWithSummary true (some "NEW") true =
        (convWithSummary.replace_history
          (convWithSummary.local_history.take 1 ++ [summaryMessage "NEW"] ++
            convWithSummary.local_history.drop 2),
         [HistEffect.archive convWithSummary.local_history,
          HistEffect.replaceLog
            (convWithSummary.local_history.take 1 ++ [summaryMessage "NEW"] ++
              convWithSummary.local_history.drop 2)],
         true)) :=
  ⟨(c2_compaction_shape (GrokConversation.new personaLim2) "S").1 (by decide),
   (c2_compaction_shape convWithSummary "NEW").2 (by decide)⟩

/-- Claim C7: if the historian round trip of a compaction fails — the
historian persona fails to load, or the summary request errors while old
messages exist — then `summarize_history` returns the error, performs no file
effect and leaves the conversation (log included) exactly as it was, and the
caller surfaces an `Error` chunk after the `Info` notice. -/
theorem c7_failed_compaction_untouched (c : GrokConversation) (historianLoadOk : Bool)
    (historianResponse : Option String) (archiveOk : Bool)
    (hfail : historianLoadOk = false ∨
      (historianResponse = none ∧
        c.local_history.length > c.persona.history_message_limit + 1)) :
    summarizeHistory c historianLoadOk historianResponse archiveOk = (c, [], false) ∧
    (c.should_summarize = true →
      evalSummarization c historianLoadOk historianResponse archiveOk =
        (c, [StreamChunk.info "Summarizing conversation history...",
             StreamChunk.error "Summarization failed"], [])) := by
  have h1 : summarizeHistory c historianLoadOk historianResponse archiveOk =
      (c, [], false) := by
    rcases hfail with h | ⟨hr, hl⟩
    · subst h
      rfl
    · subst hr
      cases historianLoadOk with
      | false => rfl
      | true =>
        unfold summarizeHistory
        simp [hl]
  refine ⟨h1, fun hs => ?_⟩
  unfold evalSummarization
  simp [hs, h1]

/-- Witness for the claim C7 theorem: failing historian load on
`convWithSummary` leaves everything untouched and surfaces the error. -/
theorem c7_failed_compaction_untouched_witness :
    summarizeHistory convWithSummary false (some "S") true =
      (convWithSummary, [], false) ∧
    evalSummarization convWithSummary false (some "S") true =
      (convWithSummary,
       [StreamChunk.info "Summarizing conversation history...",
        StreamChunk.error "Summarization failed"], []) :=
  ⟨(c7_failed_compaction_untouched convWithSummary false (some "S") true (Or.inl rfl)).1,
   (c7_failed_compaction_untouched convWithSummary false (some "S") true (Or.inl rfl)).2
     (by decide)⟩

/-- Claim C8 (amended): the `total_message_count` written on every save equals
the current in-memory log length minus one (one slot for the system prompt),
recomputed from scratch at each save; in particular, whenever a compaction
removes a net positive number of messages (log longer than
`history_message_limit + 2`), the count recorded by the next save is strictly
smaller than the one before — it is not a monotone total-ever count. -/
theorem c8_saved_total_count (c : GrokConversation) (now : String) :
    (HistoryManager.savedRecord c now).total_message_count =
      c.local_history.length - 1 ∧
    (∀ s now2, c.local_history.length > c.persona.history_message_limit + 2 →
      (HistoryManager.savedRecord
          (summarizeHistory c true (some s) true).1 now2).total_message_count <
        (HistoryManager.savedRecord c now).total_message_count) := by
  refine ⟨rfl, fun s now2 h => ?_⟩
  rw [summarizeHistory_success c s (by omega)]
  show (c.local_history.take 1 ++ [summaryMessage s] ++
      c.local_history.drop
        (c.local_history.length - c.persona.history_message_limit)).length - 1 <
    c.local_history.length - 1
  rw [List.length_append, List.length_append, List.length_take, List.length_drop,
    List.length_singleton]
  omega

/-- Witness for the amended claim C8 theorem: for `convTotal21` (22 messages,
limit 12) the saved count is the log length minus one, and the save after the
compaction records a strictly smaller count. -/
theorem c8_saved_total_count_witness :
    (HistoryManager.savedRecord convTotal21 "t1").total_message_count =
      convTotal21.local_history.length - 1 ∧
    (HistoryManager.savedRecord
        (summarizeHistory convTotal21 true (some "S") true).1 "t2").total_message_count <
      (HistoryManager.savedRecord convTotal21 "t1").total_message_count :=
  ⟨(c8_saved_total_count convTotal21 "t1").1,
   (c8_saved_total_count convTotal21 "t1").2 "S" "t2" (by decide)⟩

/-- Claim C1: every reachable conversation state — created fresh, created from
a loaded persisted record, after user/assistant appends, after recording a
continuation id, after clearing, and after any compaction attempt — has a
non-empty log whose first message has role `"system"`. -/
theorem c1_system_head_invariant : ∀ c, Reachable c →
    ∃ m, c.local_history.head? = some m ∧ m.role = "system" := by
  intro c h
  induction h with
  | create p => exact ⟨⟨"system", p.system_prompt⟩, rfl, rfl⟩
  | load p hist => exact ⟨⟨"system", p.system_prompt⟩, rfl, rfl⟩
  | user content _ ih =>
    obtain ⟨m, hm, hr⟩ := ih
    exact ⟨m, head?_append_right_one _ hm, hr⟩
  | assistant content _ ih =>
    obtain ⟨m, hm, hr⟩ := ih
    exact ⟨m, head?_append_right_one _ hm, hr⟩
  | respId id _ ih => exact ih
  | clear _ ih =>
    obtain ⟨m, hm, hr⟩ := ih
    refine ⟨m, ?_, hr⟩
    unfold GrokConversation.clear_history
    rw [hm]
    rfl
  | compact historianLoadOk historianResponse archiveOk _ ih =>
    obtain ⟨m, hm, hr⟩ := ih
    rcases summarizeHistory_log_shape _ historianLoadOk historianResponse archiveOk with
      hcase | ⟨s, _, hlog⟩
    · rw [hcase]
      exact ⟨m, hm, hr⟩
    · refine ⟨m, ?_, hr⟩
      rw [hlog]
      cases hl : GrokConversation.local_history _ with
      | nil =>
        rw [hl] at hm
        cases hm
      | cons a t =>
        rw [hl] at hm
        simpa using hm

/-- Witness for the claim C1 theorem: a fresh conversation, with a user
message appended and cleared again, still starts with a system message. -/
theorem c1_system_head_invariant_witness :
    ∃ m, ((GrokConversation.new personaLim2).add_user_message
        "hi").clear_history.local_history.head? = some m ∧ m.role = "system" :=
  c1_system_head_invariant _
    (Reachable.clear (Reachable.user "hi" (Reachable.create personaLim2)))

/-- Helper: a successful character-level `strip_prefix` decomposes the list. -/
theorem dropPrefixChars_eq_some :
    ∀ (p l r : List Char), dropPrefixChars p l = some r → l = p ++ r := by
  intro p
  induction p with
  | nil =>
    intro l r h
    simpa [dropPrefixChars] using h
  | cons a ps ih =>
    intro l r h
    cases l with
    | nil => simp [dropPrefixChars] at h
    | cons ch cs =>
      by_cases heq : a = ch
      · rw [dropPrefixChars, if_pos heq] at h
        subst heq
        rw [ih cs r h]
        rfl
      · rw [dropPrefixChars, if_neg heq] at h
        cases h

/-- Helper: a successful character-level `strip_suffix` decomposes the list. -/
theorem dropSuffixChars_eq_some (suf l r : List Char)
    (h : dropSuffixChars suf l = some r) : l = r ++ suf := by
  unfold dropSuffixChars at h
  rcases ho : dropPrefixChars suf.reverse l.reverse with _ | r'
  · rw [ho] at h
    cases h
  · rw [ho] at h
    have hr : r'.reverse = r := by simpa using h
    have h2 : l.reverse = suf.reverse ++ r' := dropPrefixChars_eq_some _ _ _ ho
    have h3 : l = (suf.reverse ++ r').reverse := by
      rw [← h2, List.reverse_reverse]
    rw [h3, List.reverse_append, List.reverse_reverse, hr]

/-- Helper: whenever the save-time strip chain succeeds, the stripped summary
re-wraps to exactly the original message content. -/
theorem stripSummaryContent_eq_some (t s : String)
    (h : HistoryManager.stripSummaryContent t = some s) : t = wrapSummary s := by
  unfold HistoryManager.stripSummaryContent at h
  rcases hp : dropPrefixChars "[Previous conversation summary: ".toList t.toList with _ | rest
  · rw [hp] at h
    cases h
  · rw [hp] at h
    simp only [Option.some_bind] at h
    rcases hd : dropSuffixChars "]".toList rest with _ | mid
    · rw [hd] at h
      cases h
    · rw [hd] at h
      have hs : s = ⟨mid⟩ := by
        simp only [Option.map_some'] at h
        exact (Option.some_inj.mp h).symm
      have h1 : t.toList = "[Previous conversation summary: ".toList ++ rest :=
        dropPrefixChars_eq_some _ _ _ hp
      have h2 : rest = mid ++ "]".toList := dropSuffixChars_eq_some _ _ _ hd
      apply String.ext
      show t.data = ("[Previous conversation summary: " ++ s ++ "]").data
      rw [String.data_append, String.data_append]
      have hsd : s.data = mid := by rw [hs]
      calc t.data = "[Previous conversation summary: ".toList ++ rest := h1
        _ = "[Previous conversation summary: ".data ++ (mid ++ "]".data) := by rw [h2]; rfl
        _ = "[Previous conversation summary: ".data ++ s.data ++ "]".data := by
            rw [hsd, List.append_assoc]

/-- Claim C5: saving a conversation and rebuilding a fresh log from the loaded
record reproduces the saved recent-message suffix exactly (it is a suffix of
both the original and the rebuilt log), and the summary marker round-trips
losslessly: whenever the save stripped a summary `s` from a marker message,
that message's content was exactly `wrapSummary s` and the rebuilt log again
contains a system message with that identical content. -/
theorem c5_save_load_roundtrip (c : GrokConversation) (now : String) (p : Persona) :
    (HistoryManager.savedRecord c now).recent_messages <:+ c.local_history ∧
    (HistoryManager.savedRecord c now).recent_messages <:+
      HistoryManager.build_history_from_loaded p (HistoryManager.savedRecord c now) ∧
    (∀ s, (HistoryManager.savedRecord c now).summary = some s →
      (∃ m, m ∈ c.local_history ∧ m.role = "system" ∧ m.content = wrapSummary s) ∧
      Message.mk "system" (wrapSummary s) ∈
        HistoryManager.build_history_from_loaded p (HistoryManager.savedRecord c now)) := by
  refine ⟨List.drop_suffix _ _, ⟨_, rfl⟩, ?_⟩
  intro s hs
  have hb : (c.local_history.find?
      (fun msg => msg.role == "system" && containsSubstr msg.content summaryMarker)).bind
        (fun msg => HistoryManager.stripSummaryContent msg.content) = some s := hs
  rcases Option.bind_eq_some.mp hb with ⟨m, hfind, hstrip⟩
  have hmem : m ∈ c.local_history := List.mem_of_find?_eq_some hfind
  have hpred := List.find?_some hfind
  have hrole : m.role = "system" := by
    have hand := (Bool.and_eq_true _ _).mp hpred
    exact beq_iff_eq.mp hand.1
  have hcontent : m.content = wrapSummary s := stripSummaryContent_eq_some _ _ hstrip
  refine ⟨⟨m, hmem, hrole, hcontent⟩, ?_⟩
  unfold HistoryManager.build_history_from_loaded
  rw [hs]
  simp

/-- Witness for the claim C5 theorem on `convWithSummary`: the saved recent
suffix is a suffix of both logs, and the stripped summary "old" re-wraps into
a message contained in the rebuilt log. -/
theorem c5_save_load_roundtrip_witness :
    (HistoryManager.savedRecord convWithSummary "t").recent_messages <:+
      convWithSummary.local_history ∧
    (HistoryManager.savedRecord convWithSummary "t").recent_messages <:+
      HistoryManager.build_history_from_loaded personaLim2
        (HistoryManager.savedRecord convWithSummary "t") ∧
    (∃ m, m ∈ convWithSummary.local_history ∧ m.role = "system" ∧
      m.content = wrapSummary "old") ∧
    Message.mk "system" (wrapSummary "old") ∈
      HistoryManager.build_history_from_loaded personaLim2
        (HistoryManager.savedRecord convWithSummary "t") := by
  have h := c5_save_load_roundtrip convWithSummary "t" personaLim2
  have h3 := h.2.2 "old" (by decide)
  exact ⟨h.1, h.2.1, h3.1, h3.2⟩

/-- Helper: unfolding `splitLines` at a newline. -/
theorem splitLines_cons_newline (cs : List Char) :
    splitLines ('\n' :: cs) = ([] :: (splitLines cs).1, (splitLines cs).2) := by
  simp [splitLines]

/-- Helper: unfolding `splitLines` at a non-newline when the tail has no
complete line. -/
theorem splitLines_cons_ne_nil {ch : Char} {cs rest : List Char} (h : ch ≠ '\n')
    (h1 : splitLines cs = ([], rest)) : splitLines (ch :: cs) = ([], ch :: rest) := by
  simp [splitLines, h, h1]

/-- Helper: unfolding `splitLines` at a non-newline when the tail has a first
complete line. -/
theorem splitLines_cons_ne_cons {ch : Char} {cs l rest : List Char}
    {ls : List (List Char)} (h : ch ≠ '\n') (h1 : splitLines cs = (l :: ls, rest)) :
    splitLines (ch :: cs) = ((ch :: l) :: ls, rest) := by
  simp [splitLines, h, h1]

/-- Helper: a buffer without newline yields no complete line. -/
theorem splitLines_eq_of_not_mem {l : List Char} (h : '\n' ∉ l) :
    splitLines l = ([], l) := by
  induction l with
  | nil => rfl
  | cons ch cs ih =>
    have hch : ch ≠ '\n' := fun he => h (he ▸ List.mem_cons_self _ _)
    have hcs : '\n' ∉ cs := fun hm => h (List.mem_cons_of_mem _ hm)
    exact splitLines_cons_ne_nil hch (ih hcs)

/-- Helper: the remainder left by `splitLines` never contains a newline. -/
theorem not_mem_splitLines_snd (l : List Char) : '\n' ∉ (splitLines l).2 := by
  induction l with
  | nil => simp [splitLines]
  | cons ch cs ih =>
    by_cases hch : ch = '\n'
    · subst hch
      rw [splitLines_cons_newline]
      exact ih
    · rcases hA : splitLines cs with ⟨ls, rest⟩
      rw [hA] at ih
      cases ls with
      | nil =>
        rw [splitLines_cons_ne_nil hch hA]
        intro hm
        rcases List.mem_cons.mp hm with he | hm2
        · exact hch he.symm
        · exact ih hm2
      | cons l0 ls' =>
        rw [splitLines_cons_ne_cons hch hA]
        exact ih

/-- Helper: splitting a concatenation — the complete lines of `a` come first,
and `a`'s partial trailing line is continued by `b`. -/
theorem splitLines_append (a b : List Char) :
    splitLines (a ++ b) =
      ((splitLines a).1 ++ (splitLines ((splitLines a).2 ++ b)).1,
       (splitLines ((splitLines a).2 ++ b)).2) := by
  induction a with
  | nil => simp [splitLines]
  | cons ch cs ih =>
    by_cases hch : ch = '\n'
    · subst hch
      rw [List.cons_append, splitLines_cons_newline, splitLines_cons_newline, ih]
      simp
    · rcases hA : splitLines cs with ⟨ls, rest⟩
      cases ls with
      | nil =>
        have h1 : splitLines (ch :: cs) = ([], ch :: rest) := splitLines_cons_ne_nil hch hA
        rcases hX : splitLines (rest ++ b) with ⟨xls, xr⟩
        have hcsb : splitLines (cs ++ b) = (xls, xr) := by
          rw [ih, hA]
          simp [hX]
        cases xls with
        | nil =>
          rw [List.cons_append, splitLines_cons_ne_nil hch hcsb, h1]
          have h2 : splitLines (ch :: (rest ++ b)) = ([], ch :: xr) :=
            splitLines_cons_ne_nil hch hX
          simp [h2]
        | cons xl xtl =>
          rw [List.cons_append, splitLines_cons_ne_cons hch hcsb, h1]
          have h2 : splitLines (ch :: (rest ++ b)) = ((ch :: xl) :: xtl, xr) :=
            splitLines_cons_ne_cons hch hX
          simp [h2]
      | cons l0 ls' =>
        have h1 : splitLines (ch :: cs) = ((ch :: l0) :: ls', rest) :=
          splitLines_cons_ne_cons hch hA
        have hcsb : splitLines (cs ++ b) =
            (l0 :: (ls' ++ (splitLines (rest ++ b)).1), (splitLines (rest ++ b)).2) := by
          rw [ih, hA]
          simp
        rw [List.cons_append, splitLines_cons_ne_cons hch hcsb, h1]
        simp

/-- Helper: feeding two chunks one after the other equals feeding their
concatenation. -/
theorem feedChunk_append (pd : String → Option DeltaChunk)
    (pc : String → Option CompletedChunk) (st : ParserState) (a b : List Char) :
    feedChunk pd pc (feedChunk pd pc st a) b = feedChunk pd pc st (a ++ b) := by
  unfold feedChunk
  rw [show st.lineBuffer ++ (a ++ b) = (st.lineBuffer ++ a) ++ b from
    (List.append_assoc _ _ _).symm]
  rw [splitLines_append (st.lineBuffer ++ a) b]
  simp [List.foldl_append]

/-- Helper: feeding an empty chunk to a newline-free buffer changes nothing. -/
theorem feedChunk_nil (pd : String → Option DeltaChunk)
    (pc : String → Option CompletedChunk) (st : ParserState)
    (h : '\n' ∉ st.lineBuffer) : feedChunk pd pc st [] = st := by
  unfold feedChunk
  rw [List.append_nil, splitLines_eq_of_not_mem h]
  rfl

/-- Helper: feeding a chunk sequence equals feeding its concatenation,
whenever the starting buffer holds no newline. -/
theorem feedAll_eq_feedChunk_join (pd : String → Option DeltaChunk)
    (pc : String → Option CompletedChunk) (chunks : List (List Char)) :
    ∀ st : ParserState, '\n' ∉ st.lineBuffer →
      feedAll pd pc st chunks = feedChunk pd pc st chunks.flatten := by
  induction chunks with
  | nil =>
    intro st h
    exact (feedChunk_nil pd pc st h).symm
  | cons c cs ih =>
    intro st h
    show feedAll pd pc (feedChunk pd pc st c) cs = _
    rw [ih (feedChunk pd pc st c) (not_mem_splitLines_snd _), feedChunk_append]
    rfl

/-- Helper: the line-at-a-time chunking reassembles the original stream. -/
theorem lineChunks_join (s : List Char) : (lineChunks s).flatten = s := by
  induction s with
  | nil => rfl
  | cons ch cs ih =>
    unfold lineChunks at ih ⊢
    by_cases hch : ch = '\n'
    · subst hch
      rw [splitLines_cons_newline]
      simpa using ih
    · rcases hA : splitLines cs with ⟨ls, rest⟩
      rw [hA] at ih
      cases ls with
      | nil =>
        rw [splitLines_cons_ne_nil hch hA]
        simp only [List.map_nil, List.nil_append, List.flatten] at ih ⊢
        simp at ih ⊢
        exact ih
      | cons l0 ls' =>
        rw [splitLines_cons_ne_cons hch hA]
        simp only [List.map_cons, List.flatten, List.cons_append] at ih ⊢
        simpa [List.append_assoc] using ih

/-- Claim C6 (amended): for every character stream and every partition of it
into chunks — any byte partition that does not split a multi-byte UTF-8
encoding — feeding the chunks to the streaming parser produces exactly the
same final state (events sent, accumulated reply, recorded continuation id,
remaining buffer) as feeding the stream one complete line at a time. -/
theorem c6_chunking_independent (pd : String → Option DeltaChunk)
    (pc : String → Option CompletedChunk) (chunks : List (List Char))
    (s : List Char) (h : chunks.flatten = s) :
    feedAll pd pc initParser chunks = feedAll pd pc initParser (lineChunks s) := by
  rw [feedAll_eq_feedChunk_join pd pc chunks initParser (by simp [initParser]),
    feedAll_eq_feedChunk_join pd pc (lineChunks s) initParser (by simp [initParser]),
    lineChunks_join, h]

/-- Witness for the amended claim C6 theorem: a mid-line split of a concrete
two-line stream produces the same parser state as line-at-a-time feeding. -/
theorem c6_chunking_independent_witness :
    feedAll pdObs pcNone initParser ["dat".toList, "a: hi\nx".toList] =
      feedAll pdObs pcNone initParser (lineChunks "data: hi\nx".toList) :=
  c6_chunking_independent pdObs pcNone _ _ (by decide)

/-- Claim C6 counterexample: the source decodes each network chunk with
`String::from_utf8_lossy` before buffering, so a byte partition that splits
the two-byte UTF-8 encoding of U+00E9 turns the payload `"x\u{e9}"` into
`"x\u{fffd}\u{fffd}"` — the delta events differ from line-at-a-time feeding
even though both partitions carry the same bytes. -/
theorem c6_counterexample :
    sseSplitA ++ sseSplitB = sseLineBytes ∧
    (feedAllBytes pdObs pcNone initParser [sseSplitA, sseSplitB]).core.sent ≠
      (feedAllBytes pdObs pcNone initParser [sseLineBytes]).core.sent := by
  refine ⟨by decide, by decide⟩

/-- Helper: a line that is not a completed line leaves the recorded
continuation id unchanged. -/
theorem processLine_responseId (pd : String → Option DeltaChunk)
    (pc : String → Option CompletedChunk) (st : ParserCore) (line : List Char)
    (h : ¬ completedLine pc line) :
    (processLine pd pc st line).responseId = st.responseId := by
  unfold processLine
  rcases hdp : dropPrefixChars "data: ".toList line with _ | dataChars
  · rfl
  · rcases hpc : pc ⟨dataChars⟩ with _ | comp
    · rcases hpd : pd ⟨dataChars⟩ with _ | d
      · simp [hpc, hpd]
      · by_cases hd : d.type_ = "response.output_text.delta" <;> simp [hpc, hpd, hd]
    · by_cases ht : comp.type_ = "response.completed"
      · exact absurd ⟨dataChars, comp, hdp, hpc, ht⟩ h
      · rcases hpd : pd ⟨dataChars⟩ with _ | d
        · simp [hpc, hpd, ht]
        · by_cases hd : d.type_ = "response.output_text.delta" <;> simp [hpc, hpd, hd, ht]

/-- Helper: processing one line either leaves the sent chunks unchanged or
appends exactly one delta. -/
theorem processLine_sent (pd : String → Option DeltaChunk)
    (pc : String → Option CompletedChunk) (st : ParserCore) (line : List Char) :
    (processLine pd pc st line).sent = st.sent ∨
    ∃ t, (processLine pd pc st line).sent = st.sent ++ [StreamChunk.delta t] := by
  unfold processLine
  rcases hdp : dropPrefixChars "data: ".toList line with _ | dataChars
  · exact Or.inl rfl
  · rcases hpc : pc ⟨dataChars⟩ with _ | comp
    · rcases hpd : pd ⟨dataChars⟩ with _ | d
      · exact Or.inl (by simp [hpc, hpd])
      · by_cases hd : d.type_ = "response.output_text.delta"
        · exact Or.inr ⟨d.delta, by simp [hpc, hpd, hd]⟩
        · exact Or.inl (by simp [hpc, hpd, hd])
    · by_cases ht : comp.type_ = "response.completed" <;>
      · rcases hpd : pd ⟨dataChars⟩ with _ | d
        · exact Or.inl (by simp [hpc, hpd, ht])
        · by_cases hd : d.type_ = "response.output_text.delta"
          · exact Or.inr ⟨d.delta, by simp [hpc, hpd, hd, ht]⟩
          · exact Or.inl (by simp [hpc, hpd, hd, ht])

/-- Chunk lists that consist of deltas only. -/
def onlyDeltas (cs : List StreamChunk) : Prop :=
  ∀ ch ∈ cs, ∃ t, ch = StreamChunk.delta t

/-- Helper: folding the line handler over completed-free lines leaves the
continuation id untouched. -/
theorem foldl_processLine_responseId (pd : String → Option DeltaChunk)
    (pc : String → Option CompletedChunk) (lines : List (List Char)) :
    ∀ st : ParserCore, (∀ l ∈ lines, ¬ completedLine pc l) →
      (lines.foldl (processLine pd pc) st).responseId = st.responseId := by
  induction lines with
  | nil => intro st _; rfl
  | cons l ls ih =>
    intro st h
    show (ls.foldl (processLine pd pc) (processLine pd pc st l)).responseId = _
    rw [ih _ (fun x hx => h x (List.mem_cons_of_mem _ hx)),
      processLine_responseId pd pc st l (h l (List.mem_cons_self _ _))]

/-- Helper: folding the line handler only ever appends delta chunks to the
sent list. -/
theorem foldl_processLine_sent (pd : String → Option DeltaChunk)
    (pc : String → Option CompletedChunk) (lines : List (List Char)) :
    ∀ st : ParserCore, ∃ extra,
      (lines.foldl (processLine pd pc) st).sent = st.sent ++ extra ∧ onlyDeltas extra := by
  induction lines with
  | nil => exact fun st => ⟨[], by simp, fun ch h => absurd h (List.not_mem_nil ch)⟩
  | cons l ls ih =>
    intro st
    obtain ⟨extra, hex, hdel⟩ := ih (processLine pd pc st l)
    rcases processLine_sent pd pc st l with h1 | ⟨t, h1⟩
    · exact ⟨extra, by rw [show (l :: ls).foldl (processLine pd pc) st =
        ls.foldl (processLine pd pc) (processLine pd pc st l) from rfl, hex, h1], hdel⟩
    · refine ⟨StreamChunk.delta t :: extra, ?_, ?_⟩
      · rw [show (l :: ls).foldl (processLine pd pc) st =
          ls.foldl (processLine pd pc) (processLine pd pc st l) from rfl, hex, h1]
        simp
      · intro ch hch
        rcases List.mem_cons.mp hch with he | hm
        · exact ⟨t, he⟩
        · exact hdel ch hm

/-- Helper: if no complete line of the whole stream is a completed event, the
parser never records a continuation id. -/
theorem feedAll_responseId_none (pd : String → Option DeltaChunk)
    (pc : String → Option CompletedChunk) (chunks : List (List Char))
    (h : ∀ l ∈ (splitLines chunks.flatten).1, ¬ completedLine pc l) :
    (feedAll pd pc initParser chunks).core.responseId = none := by
  rw [feedAll_eq_feedChunk_join pd pc chunks initParser (by simp [initParser])]
  unfold feedChunk
  rw [show initParser.lineBuffer ++ chunks.flatten = chunks.flatten from by
    simp [initParser]]
  exact foldl_processLine_responseId pd pc _ _ h

/-- Helper: everything the raw parser loop itself sends is a delta chunk. -/
theorem feedAll_sent_onlyDeltas (pd : String → Option DeltaChunk)
    (pc : String → Option CompletedChunk) (chunks : List (List Char)) :
    onlyDeltas (feedAll pd pc initParser chunks).core.sent := by
  rw [feedAll_eq_feedChunk_join pd pc chunks initParser (by simp [initParser])]
  unfold feedChunk
  rw [show initParser.lineBuffer ++ chunks.flatten = chunks.flatten from by
    simp [initParser]]
  obtain ⟨extra, hex, hdel⟩ :=
    foldl_processLine_sent pd pc (splitLines chunks.flatten).1 initParser.core
  intro ch hch
  rw [hex] at hch
  exact hdel ch (by simpa [initParser] using hch)

/-- Helper: draining a non-Complete chunk leaves the pane's canonical
conversation untouched. -/
theorem pollChunk_conv_of_not_complete (p : AgentPane) (ch : StreamChunk)
    (h : isCompleteChunk ch = false) :
    (pollChunk p ch).connection_conv = p.connection_conv := by
  cases ch with
  | delta text =>
    unfold pollChunk
    rcases p.messages.getLast? with _ | last
    · rfl
    · dsimp only
      split <;> rfl
  | complete rid full => simp [isCompleteChunk] at h
  | error e => rfl
  | info m => rfl

/-- Helper: draining only non-Complete chunks leaves the pane's canonical
conversation untouched. -/
theorem pollChunks_conv_of_no_complete (chunks : List StreamChunk) :
    ∀ p : AgentPane, (∀ ch ∈ chunks, isCompleteChunk ch = false) →
      (pollChunks p chunks).connection_conv = p.connection_conv := by
  induction chunks with
  | nil => intro p _; rfl
  | cons c cs ih =>
    intro p h
    show (pollChunks (pollChunk p c) cs).connection_conv = _
    rw [ih _ (fun x hx => h x (List.mem_cons_of_mem _ hx)),
      pollChunk_conv_of_not_complete p c (h c (List.mem_cons_self _ _))]

/-- Claim C4: when the HTTP status is fine but the body stream never carries a
completed event, the spawned turn task surfaces an `Error` chunk, never sends
a `Complete` chunk, and draining everything it sent leaves the pane's
canonical Conversation State unchanged — the accumulated partial text is
discarded even though delta fragments were already delivered. -/
theorem c4_no_completed_is_error (pd : String → Option DeltaChunk)
    (pc : String → Option CompletedChunk) (p : AgentPane) (content : String)
    (env : StreamEnv) (hok : env.statusOk = true)
    (hnc : ∀ line ∈ (splitLines env.netChunks.flatten).1, ¬ completedLine pc line) :
    (∃ e, StreamChunk.error e ∈ taskEmissions pd pc p.connection_conv content env) ∧
    (∀ rid full,
      StreamChunk.complete rid full ∉ taskEmissions pd pc p.connection_conv content env) ∧
    (pollChunks p (taskEmissions pd pc p.connection_conv content env)).connection_conv =
      p.connection_conv := by
  have hrid : (feedAll pd pc initParser env.netChunks).core.responseId = none :=
    feedAll_responseId_none pd pc env.netChunks hnc
  have hreq : send_streaming_request pd pc env =
      ((feedAll pd pc initParser env.netChunks).core.sent,
       Except.error "No response ID received") := by
    unfold send_streaming_request
    rw [hok]
    simp [hrid]
  have htask : taskEmissions pd pc p.connection_conv content env =
      (feedAll pd pc initParser env.netChunks).core.sent ++
        [StreamChunk.error "No response ID received"] := by
    unfold taskEmissions taskRun handle_response_streaming
    rw [hreq]
  have hdel := feedAll_sent_onlyDeltas pd pc env.netChunks
  refine ⟨⟨"No response ID received", ?_⟩, ?_, ?_⟩
  · rw [htask]
    exact List.mem_append_right _ (List.mem_singleton.mpr rfl)
  · intro rid full hmem
    rw [htask] at hmem
    rcases List.mem_append.mp hmem with hin | hin
    · obtain ⟨t, ht⟩ := hdel _ hin
      cases ht
    · simpa using List.mem_singleton.mp hin
  · apply pollChunks_conv_of_no_complete
    intro ch hch
    rw [htask] at hch
    rcases List.mem_append.mp hch with hin | hin
    · obtain ⟨t, ht⟩ := hdel _ hin
      rw [ht]
      rfl
    · rw [List.mem_singleton.mp hin]
      rfl

/-- Witness for the claim C4 theorem: with a decoder that never recognises a
completed event, a fragment-only stream yields the error chunk and leaves the
fresh pane's conversation unchanged. -/
theorem c4_no_completed_is_error_witness :
    (∃ e, StreamChunk.error e ∈
      taskEmissions pdObs pcNone paneSmall.connection_conv "hi" envNoComplete) ∧
    (pollChunks paneSmall
        (taskEmissions pdObs pcNone paneSmall.connection_conv "hi"
          envNoComplete)).connection_conv =
      paneSmall.connection_conv := by
  have h := c4_no_completed_is_error pdObs pcNone paneSmall "hi" envNoComplete rfl
    (by
      intro line hline hcomp
      obtain ⟨rest, comp, _, hpc, _⟩ := hcomp
      simp [pcNone] at hpc)
  exact ⟨h.1, h.2.2⟩

/-- Helper: the committed messages of a chunk concatenation. -/
theorem commitsOf_append (a b : List StreamChunk) :
    commitsOf (a ++ b) = commitsOf a ++ commitsOf b :=
  List.filterMap_append a b _

/-- Helper: one committed assistant message per Complete chunk. -/
theorem length_commitsOf (cs : List StreamChunk) :
    (commitsOf cs).length = numCompletes cs := by
  induction cs with
  | nil => rfl
  | cons c cs ih =>
    cases c <;>
      simp [commitsOf, numCompletes, List.countP_cons, isCompleteChunk,
        List.filterMap_cons] at ih ⊢ <;>
      omega

/-- Helper: draining one chunk appends exactly its commits to the canonical
log. -/
theorem pollChunk_log (p : AgentPane) (ch : StreamChunk) :
    (pollChunk p ch).connection_conv.local_history =
      p.connection_conv.local_history ++ commitsOf [ch] := by
  cases ch with
  | delta text =>
    rw [pollChunk_conv_of_not_complete p (StreamChunk.delta text) rfl]
    simp [commitsOf]
  | complete rid full => simp [pollChunk, commitsOf]
  | error e =>
    rw [pollChunk_conv_of_not_complete p (StreamChunk.error e) rfl]
    simp [commitsOf]
  | info m =>
    rw [pollChunk_conv_of_not_complete p (StreamChunk.info m) rfl]
    simp [commitsOf]

/-- Helper: draining a chunk list appends exactly its commits, in order, to
the canonical log. -/
theorem pollChunks_log (cs : List StreamChunk) :
    ∀ p : AgentPane, (pollChunks p cs).connection_conv.local_history =
      p.connection_conv.local_history ++ commitsOf cs := by
  induction cs with
  | nil => intro p; simp [pollChunks, commitsOf]
  | cons c cs ih =>
    intro p
    show (pollChunks (pollChunk p c) cs).connection_conv.local_history = _
    rw [ih, pollChunk_log, show (c :: cs) = [c] ++ cs from rfl, commitsOf_append,
      List.append_assoc]

/-- Helper: the emit action changes neither the pane nor the stream of chunks
that can still reach the consumer. -/
theorem schedStep_emit_frame (σ : SessionState) :
    (schedStep σ SchedOp.emit).pane = σ.pane ∧
    totalStream (schedStep σ SchedOp.emit) = totalStream σ := by
  unfold schedStep
  rcases hp : σ.producer with _ | l
  · exact ⟨rfl, rfl⟩
  · cases l with
    | nil => exact ⟨rfl, rfl⟩
    | cons c rest =>
      refine ⟨rfl, ?_⟩
      simp [totalStream, pendingOf, hp]

/-- Helper: any run of emit/poll actions commits exactly the Complete chunks
of some consumed prefix of the pending stream. -/
theorem schedRun_decomp (ops : List SchedOp) :
    ∀ σ : SessionState, ∃ n,
      (schedRun σ ops).pane.connection_conv.local_history =
        σ.pane.connection_conv.local_history ++ commitsOf ((totalStream σ).take n) ∧
      totalStream (schedRun σ ops) = (totalStream σ).drop n := by
  induction ops with
  | nil =>
    intro σ
    exact ⟨0, by simp [schedRun, commitsOf], by simp [schedRun]⟩
  | cons op ops ih =>
    intro σ
    obtain ⟨n, h1, h2⟩ := ih (schedStep σ op)
    have hrun : schedRun σ (op :: ops) = schedRun (schedStep σ op) ops := rfl
    cases op with
    | emit =>
      obtain ⟨hpane, htot⟩ := schedStep_emit_frame σ
      refine ⟨n, ?_, ?_⟩
      · rw [hrun, h1, hpane, htot]
      · rw [hrun, h2, htot]
    | poll =>
      have hp : (schedStep σ SchedOp.poll).pane.connection_conv.local_history =
          σ.pane.connection_conv.local_history ++ commitsOf σ.queue :=
        pollChunks_log σ.queue σ.pane
      have ht : totalStream (schedStep σ SchedOp.poll) = pendingOf σ := by
        simp [schedStep, totalStream, pendingOf]
      refine ⟨σ.queue.length + n, ?_, ?_⟩
      · rw [hrun, h1, hp, ht, List.append_assoc, ← commitsOf_append]
        have : (totalStream σ).take (σ.queue.length + n) =
            σ.queue ++ (pendingOf σ).take n := by
          rw [totalStream]
          exact List.take_append n
        rw [this]
      · rw [hrun, h2, ht]
        have : (totalStream σ).drop (σ.queue.length + n) = (pendingOf σ).drop n := by
          rw [totalStream]
          exact List.drop_append n
        rw [this]

/-- Helper: the chunks the streaming HTTP call itself sends contain no
Complete chunk. -/
theorem send_streaming_request_sent_numCompletes (pd : String → Option DeltaChunk)
    (pc : String → Option CompletedChunk) (env : StreamEnv) :
    numCompletes (send_streaming_request pd pc env).1 = 0 := by
  unfold send_streaming_request
  by_cases hs : env.statusOk
  · have hdel := feedAll_sent_onlyDeltas pd pc env.netChunks
    have hz : numCompletes (feedAll pd pc initParser env.netChunks).core.sent = 0 :=
      List.countP_eq_zero.mpr (fun ch hch => by
        obtain ⟨t, ht⟩ := hdel ch hch
        simp [ht, isCompleteChunk])
    rcases hrid : (feedAll pd pc initParser env.netChunks).core.responseId with _ | rid <;>
      simp [hs, hrid, hz]
  · simp only [Bool.not_eq_true] at hs
    simp [hs, numCompletes, List.countP_cons, isCompleteChunk]

/-- Helper: the summarization evaluation never sends a Complete chunk. -/
theorem evalSummarization_chunks_numCompletes (c : GrokConversation)
    (historianLoadOk : Bool) (historianResponse : Option String) (archiveOk : Bool) :
    numCompletes (evalSummarization c historianLoadOk historianResponse archiveOk).2.1 = 0 := by
  unfold evalSummarization
  by_cases hss : c.should_summarize = true
  · by_cases hr : (summarizeHistory c historianLoadOk historianResponse archiveOk).2.2 = true <;>
      simp [hss, hr, numCompletes, List.countP_cons, isCompleteChunk]
  · simp only [Bool.not_eq_true] at hss
    simp [hss, numCompletes]

/-- Helper: the save/summarize side path never sends a Complete chunk. -/
theorem historySideEffects_chunks_numCompletes (c1 : GrokConversation)
    (historianLoadOk : Bool) (historianResponse : Option String) (archiveOk : Bool) :
    numCompletes
      (historySideEffects c1 historianLoadOk historianResponse archiveOk).2.1 = 0 := by
  unfold historySideEffects
  by_cases hh : c1.persona.enable_history = true
  · simp only [hh, if_true]
    exact evalSummarization_chunks_numCompletes c1 historianLoadOk historianResponse archiveOk
  · simp only [Bool.not_eq_true] at hh
    simp [hh, numCompletes]

/-- Helper: one streaming turn sends at most one Complete chunk. -/
theorem handle_response_streaming_numCompletes (pd : String → Option DeltaChunk)
    (pc : String → Option CompletedChunk) (c : GrokConversation) (env : StreamEnv) :
    numCompletes (handle_response_streaming pd pc c env).2.1 ≤ 1 := by
  have hsent := send_streaming_request_sent_numCompletes pd pc env
  unfold handle_response_streaming
  split
  next sent e heq =>
    rw [heq] at hsent
    have h2 : numCompletes sent = 0 := hsent
    show numCompletes sent ≤ 1
    omega
  next sent resp heq =>
    rw [heq] at hsent
    have h2 : numCompletes sent = 0 := hsent
    have h3 := historySideEffects_chunks_numCompletes
      ((c.add_assistant_message resp.full_text).set_last_response_id resp.response_id)
      env.historianLoadOk env.historianResponse env.archiveOk
    simp only [numCompletes, List.countP_append, List.countP_cons,
      isCompleteChunk] at h2 h3 ⊢
    simp [h2, h3]

/-- Helper: one spawned turn task emits at most one Complete chunk (exactly
one on success, none on failure). -/
theorem taskEmissions_numCompletes_le_one (pd : String → Option DeltaChunk)
    (pc : String → Option CompletedChunk) (c : GrokConversation) (content : String)
    (env : StreamEnv) :
    numCompletes (taskEmissions pd pc c content env) ≤ 1 := by
  have hh := handle_response_streaming_numCompletes pd pc (c.add_user_message content) env
  unfold taskEmissions taskRun
  split
  next c1 sent effs heq =>
    rw [heq] at hh
    exact hh
  next c1 sent effs e heq =>
    rw [heq] at hh
    have h2 : numCompletes sent ≤ 1 := hh
    show numCompletes (sent ++ [StreamChunk.error e]) ≤ 1
    simp only [numCompletes, List.countP_append, List.countP_cons, List.countP_nil,
      isCompleteChunk] at h2 ⊢
    simpa using h2

/-- Helper: every committed message stems from a Complete chunk of the drained
list and is an assistant message with that chunk's full reply. -/
theorem mem_commitsOf (x : Message) (cs : List StreamChunk) (hx : x ∈ commitsOf cs) :
    ∃ rid full, StreamChunk.complete rid full ∈ cs ∧ x = ⟨"assistant", full⟩ := by
  obtain ⟨ch, hch, hf⟩ := List.mem_filterMap.mp hx
  cases ch with
  | delta t => simp at hf
  | complete rid full => exact ⟨rid, full, hch, (Option.some_inj.mp hf).symm⟩
  | error e => simp at hf
  | info m => simp at hf

/-- Claim C9: starting a new send cancels the in-flight task first (the send
itself leaves the canonical Conversation State unchanged, and the aborted
producer's unsent chunks are discarded); afterwards, under any interleaving of
producer emissions and consumer polls with no further send, the canonical log
either is still exactly the old log or has gained exactly one assistant
message, which comes from a Complete chunk of the new request; and when the
channel fully drains and the new request succeeded (exactly one Complete
emitted), exactly one assistant commit has happened.  The hypothesis states
that the old task was still in flight: no Complete chunk of it was sitting in
the channel. -/
theorem c9_cancel_and_replace (pd : String → Option DeltaChunk)
    (pc : String → Option CompletedChunk) (σ : SessionState) (content : String)
    (env : StreamEnv) (ops : List SchedOp) (hq : numCompletes σ.queue = 0) :
    (handleSendMessage pd pc σ content env).pane.connection_conv =
      σ.pane.connection_conv ∧
    ((schedRun (handleSendMessage pd pc σ content env)
          ops).pane.connection_conv.local_history =
        σ.pane.connection_conv.local_history ∨
      ∃ rid full,
        StreamChunk.complete rid full ∈
          taskEmissions pd pc σ.pane.connection_conv content env ∧
        (schedRun (handleSendMessage pd pc σ content env)
            ops).pane.connection_conv.local_history =
          σ.pane.connection_conv.local_history ++ [⟨"assistant", full⟩]) ∧
    (totalStream (schedRun (handleSendMessage pd pc σ content env) ops) = [] →
      numCompletes (taskEmissions pd pc σ.pane.connection_conv content env) = 1 →
      ∃ rid full,
        StreamChunk.complete rid full ∈
          taskEmissions pd pc σ.pane.connection_conv content env ∧
        (schedRun (handleSendMessage pd pc σ content env)
            ops).pane.connection_conv.local_history =
          σ.pane.connection_conv.local_history ++ [⟨"assistant", full⟩]) := by
  set script := taskEmissions pd pc σ.pane.connection_conv content env with hscript
  set σ₁ := handleSendMessage pd pc σ content env with hσ₁
  have hpane : σ₁.pane.connection_conv = σ.pane.connection_conv := rfl
  have htot : totalStream σ₁ = σ.queue ++ script := rfl
  obtain ⟨n, h1, h2⟩ := schedRun_decomp ops σ₁
  have hle : numCompletes script ≤ 1 := taskEmissions_numCompletes_le_one pd pc _ _ _
  have htotc : numCompletes (totalStream σ₁) = numCompletes script := by
    rw [htot]
    simp only [numCompletes, List.countP_append]
    rw [show σ.queue.countP (fun ch => isCompleteChunk ch) = 0 from hq]
    omega
  have hmemT : ∀ ch, ch ∈ totalStream σ₁ → isCompleteChunk ch = true → ch ∈ script := by
    intro ch hch hcomp
    rw [htot] at hch
    rcases List.mem_append.mp hch with hin | hin
    · exact absurd hcomp (by simpa using List.countP_eq_zero.mp hq ch hin)
    · exact hin
  have hsplit : numCompletes ((totalStream σ₁).take n) +
      numCompletes ((totalStream σ₁).drop n) = numCompletes (totalStream σ₁) := by
    simp only [numCompletes]
    rw [← List.countP_append, List.take_append_drop]
  have hlen : (commitsOf ((totalStream σ₁).take n)).length ≤ 1 := by
    rw [length_commitsOf]
    omega
  have hmain : (schedRun σ₁ ops).pane.connection_conv.local_history =
      σ.pane.connection_conv.local_history ∨
      ∃ rid full, StreamChunk.complete rid full ∈ script ∧
        (schedRun σ₁ ops).pane.connection_conv.local_history =
          σ.pane.connection_conv.local_history ++ [⟨"assistant", full⟩] := by
    rcases hcs : commitsOf ((totalStream σ₁).take n) with _ | ⟨x, tl⟩
    · left
      rw [h1, hpane, hcs, List.append_nil]
    · cases tl with
      | nil =>
        right
        have hx : x ∈ commitsOf ((totalStream σ₁).take n) := by
          rw [hcs]
          exact List.mem_singleton_self x
        obtain ⟨rid, full, hchmem, hxeq⟩ := mem_commitsOf x _ hx
        refine ⟨rid, full, hmemT _ (List.mem_of_mem_take hchmem) rfl, ?_⟩
        rw [h1, hpane, hcs, hxeq]
      | cons y tl2 =>
        rw [hcs] at hlen
        simp at hlen
  refine ⟨hpane, hmain, ?_⟩
  intro hdrain hone
  have hdrop : (totalStream σ₁).drop n = [] := h2.symm.trans hdrain
  have hlen2 : (totalStream σ₁).length ≤ n := List.drop_eq_nil_iff.mp hdrop
  have htake : (totalStream σ₁).take n = totalStream σ₁ := List.take_of_length_le hlen2
  have hcnt : (commitsOf ((totalStream σ₁).take n)).length = 1 := by
    rw [htake, length_commitsOf, htotc]
    exact hone
  obtain ⟨x, hx⟩ := List.length_eq_one.mp hcnt
  obtain ⟨rid, full, hchmem, hxeq⟩ := mem_commitsOf x _ (by
    rw [hx]
    exact List.mem_singleton_self x)
  refine ⟨rid, full, hmemT _ (List.mem_of_mem_take hchmem) rfl, ?_⟩
  rw [h1, hpane, hx, hxeq]

/-- Witness for the claim C9 theorem: on a fresh session, a send whose stream
completes (decoder `pcAlways`), followed by three emissions and one poll,
commits exactly one assistant message coming from the new request's Complete
chunk. -/
theorem c9_cancel_and_replace_witness :
    ∃ rid full,
      StreamChunk.complete rid full ∈
        taskEmissions pdObs pcAlways sessionSmall.pane.connection_conv "hi"
          envNoComplete ∧
      (schedRun (handleSendMessage pdObs pcAlways sessionSmall "hi" envNoComplete)
          [SchedOp.emit, SchedOp.emit, SchedOp.emit,
            SchedOp.poll]).pane.connection_conv.local_history =
        sessionSmall.pane.connection_conv.local_history ++ [⟨"assistant", "hi"⟩] := by
  have h := (c9_cancel_and_replace pdObs pcAlways sessionSmall "hi" envNoComplete
    [SchedOp.emit, SchedOp.emit, SchedOp.emit, SchedOp.poll] (by decide)).2.2
    (by decide) (by decide)
  obtain ⟨rid, full, hmem, hlog⟩ := h
  have hlist : taskEmissions pdObs pcAlways sessionSmall.pane.connection_conv "hi"
      envNoComplete =
      [StreamChunk.delta "hi", StreamChunk.info "Summarizing conversation history...",
       StreamChunk.complete "rid1" "hi"] := by decide
  have hmem2 := hmem
  rw [hlist] at hmem2
  simp only [List.mem_cons, List.not_mem_nil, or_false] at hmem2
  have hfull : full = "hi" := by
    rcases hmem2 with h1 | h1 | h1
    · cases h1
    · cases h1
    · cases h1
      rfl
  exact ⟨rid, full, hmem, by rw [hlog, hfull]⟩

/-- Claim C10: the send operation mutates only the display and task fields —
the canonical conversation is untouched because the spawned task works on a
clone seeded from it; on the consumer side, a Complete chunk is the only
chunk that mutates the canonical conversation, doing exactly two things —
setting the continuation token and appending one assistant message — and no
consumer-side handling ever appends a user message to the canonical log. -/
theorem c10_send_frame_effect (pd : String → Option DeltaChunk)
    (pc : String → Option CompletedChunk) (σ : SessionState) (content : String)
    (env : StreamEnv) (p : AgentPane) :
    (handleSendMessage pd pc σ content env).pane.connection_conv =
      σ.pane.connection_conv ∧
    (handleSendMessage pd pc σ content env).producer =
      some (taskEmissions pd pc σ.pane.connection_conv content env) ∧
    (∀ rid full,
      (pollChunk p (StreamChunk.complete rid full)).connection_conv =
        { local_history := p.connection_conv.local_history ++ [⟨"assistant", full⟩],
          last_response_id := some rid,
          persona := p.connection_conv.persona }) ∧
    (∀ ch, isCompleteChunk ch = false →
      (pollChunk p ch).connection_conv = p.connection_conv) ∧
    (∀ ch, ∀ m ∈ (pollChunk p ch).connection_conv.local_history,
      m ∈ p.connection_conv.local_history ∨ m.role = "assistant") := by
  refine ⟨rfl, rfl, fun rid full => rfl, pollChunk_conv_of_not_complete p, ?_⟩
  intro ch m hm
  rw [pollChunk_log p ch] at hm
  rcases List.mem_append.mp hm with hin | hin
  · exact Or.inl hin
  · obtain ⟨rid, full, _, hmeq⟩ := mem_commitsOf m _ hin
    exact Or.inr (by rw [hmeq])

/-- Witness for the claim C10 theorem at concrete inputs: a send on the fresh
session leaves its conversation unchanged; a concrete Complete chunk sets the
token and appends the assistant message; an Info chunk changes nothing. -/
theorem c10_send_frame_effect_witness :
    (handleSendMessage pdObs pcNone sessionSmall "hi" envNoComplete).pane.connection_conv =
      sessionSmall.pane.connection_conv ∧
    (pollChunk paneSmall (StreamChunk.complete "rid" "done")).connection_conv =
      { local_history := paneSmall.connection_conv.local_history ++ [⟨"assistant", "done"⟩],
        last_response_id := some "rid",
        persona := paneSmall.connection_conv.persona } ∧
    (pollChunk paneSmall (StreamChunk.info "x")).connection_conv =
      paneSmall.connection_conv := by
  have h := c10_send_frame_effect pdObs pcNone sessionSmall "hi" envNoComplete paneSmall
  exact ⟨h.1, h.2.2.1 "rid" "done", h.2.2.2.1 (StreamChunk.info "x") rfl⟩

end Grokprime
